import Mathlib

/-!
Verification of the OPQ pairs-trading system.

This file gives a shallow embedding of the core of the repository:

* `strategy.py` — `HoldingPair`, `PairTradeStrategy.__init__` (as `mkStrategy`),
  `PairTradeStrategy.detect_level`, and `PairTradeStrategy.decide`;
* `backtesting.py` — `cash_change`, `net_worth`, and the max-drawdown metric of
  `evaluate`;
* `training.py` — `generate_jobs` and the outstanding-job filtering of `main`.

Prices, spread statistics and money are modelled as rationals.  Python float
`NaN`/`inf` behaviour, which the z-score computation of `detect_level` relies
on when the spread standard deviation is zero or undefined, is modelled by the
extended-value type `RExt`: `spread_std` is an `Option ℚ` whose `none` stands
for `NaN`, and comparisons against `NaN` are false, as for IEEE floats.
Python `int()` truncation is `ratTrunc`, and Python `round(x, 2)` (banker's
rounding to two decimals) is `pyRound2`.
-/

namespace OPQ

/-- Truncation toward zero, as Python `int()` applied to a float. -/
def ratTrunc (q : ℚ) : ℤ := if 0 ≤ q then ⌊q⌋ else ⌈q⌉

/-- Round a rational to the nearest integer, ties to even, as Python `round`. -/
def roundHalfEven (q : ℚ) : ℤ :=
  if q - ⌊q⌋ < 1/2 then ⌊q⌋
  else if 1/2 < q - ⌊q⌋ then ⌊q⌋ + 1
  else if ⌊q⌋ % 2 = 0 then ⌊q⌋ else ⌊q⌋ + 1

/-- Python `round(q, 2)`: round to two decimal places, ties to even. -/
def pyRound2 (q : ℚ) : ℚ := (roundHalfEven (100 * q) : ℚ) / 100

/-! ### Python dicts of integer order quantities

`decide` builds its order map as a Python `dict` keyed by stock code; we model
it as an association list with unique keys kept in insertion order.  `dGet`
is `dict.get(k, 0)`, `dHas` is `k in dict`, and `dAdd d k v` is the compound
`d[k] = d.get(k, 0) + v`. -/

/-- Python `d.get(k, 0)` for the order dictionary. -/
def dGet : List (String × ℤ) → String → ℤ
  | [], _ => 0
  | (k', v') :: rest, k => if k' = k then v' else dGet rest k

/-- Python `k in d` for the order dictionary. -/
def dHas : List (String × ℤ) → String → Bool
  | [], _ => false
  | (k', _) :: rest, k => if k' = k then true else dHas rest k

/-- Python `d[k] = d.get(k, 0) + v`: add `v` to the entry of `k`, inserting it at the
end if absent. -/
def dAdd : List (String × ℤ) → String → ℤ → List (String × ℤ)
  | [], k, v => [(k, v)]
  | (k', v') :: rest, k, v =>
      if k' = k then (k', v' + v) :: rest else (k', v') :: dAdd rest k v

/-! ### Float z-scores

`detect_level` computes `(spread - mean) / std` on floats.  When `std` is the
float `NaN` (undefined statistics) the result is `NaN`; when `std` is `0.0`
the result is `±inf` or `NaN` depending on the numerator's sign. -/

/-- Extended value: a float z-score that may be `NaN` or `±inf`. -/
inductive RExt where
  | nan : RExt
  | pinf : RExt
  | ninf : RExt
  | fin : ℚ → RExt
deriving DecidableEq

/-- Float comparison `abs(z) >= t`: false for `NaN`, true for `±inf`. -/
def rextAbsGe : RExt → ℚ → Bool
  | .nan, _ => false
  | .pinf, _ => true
  | .ninf, _ => true
  | .fin q, t => decide (t ≤ |q|)

/-- Float comparison `z < 0`: false for `NaN` and `+inf`, true for `-inf`. -/
def rextLt0 : RExt → Bool
  | .nan => false
  | .pinf => false
  | .ninf => true
  | .fin q => decide (q < 0)

/-- The z-score `(spread - mean) / std` under float semantics; `std = none` models `NaN`
(statistics undefined, e.g. a window with fewer than two points). -/
def zscore (spread mean : ℚ) (std : Option ℚ) : RExt :=
  match std with
  | none => .nan
  | some s =>
      if s = 0 then
        if spread - mean = 0 then .nan
        else if 0 < spread - mean then .pinf
        else .ninf
      else .fin ((spread - mean) / s)

/-! ### The strategy state (`strategy.py`) -/

/-- Class `HoldingPair` of `strategy.py`: a pair of stocks `(X, Y)` in held, the
resulting asset being `Y - beta * X`.  `spread_std` is an `Option ℚ` whose
`none` models float `NaN`. -/
structure HoldingPair where
  X : String
  Y : String
  beta : ℚ
  spread_mean : ℚ
  spread_std : Option ℚ
  money_allocated : ℚ
  position : ℤ
  X_quantity : ℤ
  Y_quantity : ℤ
deriving DecidableEq

/-- Constructor `HoldingPair.__init__`: fresh pair with zeroed statistics and position. -/
def mkHoldingPair (X Y : String) (beta : ℚ) : HoldingPair :=
  { X := X, Y := Y, beta := beta, spread_mean := 0, spread_std := some 0,
    money_allocated := 0, position := 0, X_quantity := 0, Y_quantity := 0 }

/-- The configuration and per-pair state of `PairTradeStrategy`. -/
structure PairTradeStrategy where
  threshold_exit : ℚ
  thresholds_enter : List ℚ
  threshold_stop : ℚ
  allocations : List ℚ
  pairs : List HoldingPair
deriving DecidableEq

/-- Constructor `PairTradeStrategy.__init__`: sorts the absolute values of the given
thresholds, takes the first as exit and the last as stop, keeps the middle as
enter thresholds, takes absolute values of the allocations, and asserts that
the enter-threshold and allocation counts match and the allocations sum to at
most 1.  `none` models an exception escaping the constructor (the `IndexError`
on an empty threshold list or a failed `assert`). -/
def mkStrategy (thresholds : List ℚ) (allocations : List ℚ)
    (pairList : List (String × String × ℚ)) : Option PairTradeStrategy :=
  match (thresholds.map (fun t => |t|)).insertionSort (· ≤ ·) with
  | [] => none
  | t0 :: rest =>
      let enter := rest.dropLast
      let allocs := allocations.map (fun a => |a|)
      if enter.length = allocs.length ∧ allocs.sum ≤ 1 then
        some { threshold_exit := t0
             , thresholds_enter := enter
             , threshold_stop := (t0 :: rest).getLast (by simp)
             , allocations := allocs
             , pairs := pairList.map (fun q => mkHoldingPair q.1 q.2.1 q.2.2) }
      else none

/-- The full ladder `[exit] + enter + [stop]` iterated by `detect_level`. -/
def thresholds_all (s : PairTradeStrategy) : List ℚ :=
  s.threshold_exit :: (s.thresholds_enter ++ [s.threshold_stop])

/-- Method `PairTradeStrategy.detect_level`: count how many ladder entries `|z|` has
crossed; negate the count when `z < 0`. -/
def detect_level (s : PairTradeStrategy) (pair : HoldingPair)
    (x_price y_price : ℚ) : ℤ :=
  let cur_spread := y_price - pair.beta * x_price
  let z := zscore cur_spread pair.spread_mean pair.spread_std
  let level : ℕ :=
    (thresholds_all s).foldl (fun acc t => if rextAbsGe z t then acc + 1 else acc) 0
  if rextLt0 z then -(level : ℤ) else (level : ℤ)

/-- The target pair position `decide` derives from the detected level:
flat inside the exit band, hold between exit and the first enter threshold,
flat beyond the stop threshold, otherwise long when the level is negative and
short when it is positive. -/
def target_position (s : PairTradeStrategy) (position level : ℤ) : ℤ :=
  if level = 0 then 0
  else if level.natAbs = 1 then position
  else if level.natAbs = s.thresholds_enter.length + 2 then 0
  else (if level < 0 then 1 else -1) * ((level.natAbs : ℤ) - 1)

/-- The result of one pair's pass through the loop body of
`PairTradeStrategy.decide`: the two order deltas and the updated pair. -/
structure PairDecision where
  dX : ℤ
  dY : ℤ
  pair : HoldingPair
deriving DecidableEq

/-- The body of the per-pair loop of `PairTradeStrategy.decide`: derive the
target position from the detected level and, if it differs from the current
position, size the legs from the allocated money and emit the quantity
changes. -/
def decide_pair (s : PairTradeStrategy) (pair : HoldingPair)
    (x_price y_price : ℚ) : PairDecision :=
  let pair_price := y_price + |pair.beta| * x_price
  let level := detect_level s pair x_price y_price
  let target := target_position s pair.position level
  if pair.position ≠ target then
    let money_alloc := pair.money_allocated * (s.allocations.take target.natAbs).sum
    let Y_target : ℤ :=
      if 0 < target then ratTrunc (money_alloc / pair_price)
      else if target < 0 then -(ratTrunc (money_alloc / pair_price))
      else 0
    let X_target : ℤ := -(ratTrunc ((Y_target : ℚ) * pair.beta))
    { dX := X_target - pair.X_quantity
    , dY := Y_target - pair.Y_quantity
    , pair := { pair with position := target
                        , X_quantity := X_target
                        , Y_quantity := Y_target } }
  else
    { dX := 0, dY := 0, pair := pair }

/-- One iteration of the `for pair in self.pairs` loop of `decide`:
initialise the two order-dict entries, run the pair, accumulate the deltas
into the dict and record the updated pair. -/
def decide_step (s : PairTradeStrategy) (stock_prices : String → ℚ)
    (acc : List (String × ℤ) × List HoldingPair) (pair : HoldingPair) :
    List (String × ℤ) × List HoldingPair :=
  let orders0 := dAdd (dAdd acc.1 pair.X 0) pair.Y 0
  let r := decide_pair s pair (stock_prices pair.X) (stock_prices pair.Y)
  (dAdd (dAdd orders0 pair.X r.dX) pair.Y r.dY, acc.2 ++ [r.pair])

/-- Method `PairTradeStrategy.decide(stock_prices)`: run every pair, returning the
order map together with the strategy holding the mutated pairs. -/
def decide (s : PairTradeStrategy) (stock_prices : String → ℚ) :
    List (String × ℤ) × PairTradeStrategy :=
  let res := s.pairs.foldl (decide_step s stock_prices) ([], [])
  (res.1, { s with pairs := res.2 })

/-- All stocks appearing as a leg of some pair in the watch list. -/
def pairStocks (s : PairTradeStrategy) : List String :=
  s.pairs.flatMap (fun p => [p.X, p.Y])

/-- The contribution of one pair to the order-map entry of `stock` during
`decide`: its X delta if `stock` is its X leg plus its Y delta if `stock` is
its Y leg. -/
def pairContrib (s : PairTradeStrategy) (stock_prices : String → ℚ)
    (p : HoldingPair) (stock : String) : ℤ :=
  let r := decide_pair s p (stock_prices p.X) (stock_prices p.Y)
  (if p.X = stock then r.dX else 0) + (if p.Y = stock then r.dY else 0)

/-! ### The ledger (`backtesting.py`) -/

/-- Function `backtesting.cash_change`: settle each order at its stock's close price,
charge the per-dollar and per-share transaction costs, and round the total to
cents. -/
def cash_change (orders : List (String × ℤ)) (close : String → ℚ)
    (tx_cost_per_share tx_cost_per_dollar : ℚ) : ℚ :=
  pyRound2 (orders.foldl
    (fun change kv =>
      change + (-(close kv.1) * (kv.2 : ℚ))
        - |(-(close kv.1) * (kv.2 : ℚ))| * tx_cost_per_dollar
        - (kv.2 : ℚ) * tx_cost_per_share)
    0)

/-- Function `backtesting.net_worth`: value every position at its stock's close price
and round the total to cents. -/
def net_worth (positions : List (String × ℤ)) (close : String → ℚ) : ℚ :=
  pyRound2 (positions.foldl (fun worth kv => worth + close kv.1 * (kv.2 : ℚ)) 0)

/-- Python `min` of a nonempty list (0 for the empty list, which Python would
reject). -/
def list_min : List ℚ → ℚ
  | [] => 0
  | x :: xs => xs.foldl min x

/-- Python `max` of a nonempty list (0 for the empty list, which Python would
reject). -/
def list_max : List ℚ → ℚ
  | [] => 0
  | x :: xs => xs.foldl max x

/-- The `Max Drawdown` metric of `backtesting.evaluate`: with
`daily_tnw_aug = [initial_cash] + daily_tnw`, report
`(min(daily_tnw_aug) - max(daily_tnw_aug)) / max(daily_tnw_aug)`. -/
def max_drawdown (initial_cash : ℚ) (daily_tnw : List ℚ) : ℚ :=
  let daily_tnw_aug := initial_cash :: daily_tnw
  (list_min daily_tnw_aug - list_max daily_tnw_aug) / list_max daily_tnw_aug

/-! ### The training pipeline (`training.py`) -/

/-- The ordered pairs `(codes[i], codes[j])`, `i < j`, in the order the nested
loops of `generate_jobs` produce them. -/
def pairs_of : List String → List (String × String)
  | [] => []
  | x :: xs => xs.map (fun y => (x, y)) ++ pairs_of xs

/-- Function `training.generate_jobs`: sort the stock codes, enumerate all unordered
pairs and give each a sequential job id. -/
def generate_jobs (stock_codes : List String) : List (ℕ × String × String) :=
  let sortedCodes := stock_codes.insertionSort (· ≤ ·)
  (pairs_of sortedCodes).enum.map (fun ip => (ip.1, ip.2.1, ip.2.2))

/-- The outstanding-job computation of `training.main`: keep exactly the jobs
whose id is not among the ids collected from existing output files. -/
def outstanding_jobs (total_jobs : List (ℕ × String × String))
    (jobs_done_ids : List ℕ) : List (ℕ × String × String) :=
  total_jobs.filter (fun job => !(jobs_done_ids.contains job.1))

/-! ### Concrete fixtures used by counterexamples and witnesses -/

/-- Ladder `[exit=1, enter=2, stop=3]` with full allocation at the single
enter tier; the watch list is irrelevant to the per-pair lemmas. -/
def stratDemo : PairTradeStrategy :=
  { threshold_exit := 1, thresholds_enter := [2], threshold_stop := 3,
    allocations := [1], pairs := [] }

/-- A flat pair (X="A", Y="B", beta=1) with spread statistics mean 0, std 1. -/
def pairA : HoldingPair :=
  { X := "A", Y := "B", beta := 1, spread_mean := 0, spread_std := some 1,
    money_allocated := 100, position := 0, X_quantity := 0, Y_quantity := 0 }

/-- A pair holding one tier whose spread statistics are undefined (`NaN`). -/
def pairNan : HoldingPair :=
  { X := "A", Y := "B", beta := 1, spread_mean := 0, spread_std := none,
    money_allocated := 100, position := 1, X_quantity := -3, Y_quantity := 3 }

/-- Strategy `stratDemo` watching exactly `pairNan`. -/
def stratNan : PairTradeStrategy := { stratDemo with pairs := [pairNan] }

/-- A flat pair with beta 9/10 and spread statistics mean 0, std 5. -/
def pairC3 : HoldingPair :=
  { X := "A", Y := "B", beta := 9/10, spread_mean := 0, spread_std := some 5,
    money_allocated := 100, position := 0, X_quantity := 0, Y_quantity := 0 }

/-- Strategy `stratDemo` watching exactly `pairA`. -/
def stratA : PairTradeStrategy := { stratDemo with pairs := [pairA] }

/-- Pair `pairA` holding one tier (position 1, quantities −3/3). -/
def pairStop : HoldingPair := { pairA with position := 1, X_quantity := -3, Y_quantity := 3 }

/-- Strategy `stratDemo` watching exactly `pairStop`. -/
def stratStop : PairTradeStrategy := { stratDemo with pairs := [pairStop] }

/-- Prices that push `pairStop`'s z-score to 10, beyond the stop threshold. -/
def pricesStop : String → ℚ := fun c => if c = "B" then 10 else 0

/-! ### Dictionary lemmas -/

lemma dGet_dAdd (d : List (String × ℤ)) (k : String) (v : ℤ) (k2 : String) :
    dGet (dAdd d k v) k2 = dGet d k2 + if k = k2 then v else 0 := by
  induction d with
  | nil =>
      by_cases h : k = k2 <;> simp [dAdd, dGet, h]
  | cons kv rest ih =>
      obtain ⟨a, b⟩ := kv
      by_cases hak : a = k
      · subst hak
        by_cases hk2 : a = k2 <;> simp [dAdd, dGet, hk2] <;> ring
      · by_cases hk2 : a = k2
        · subst hk2
          have : ¬ k = a := fun h => hak h.symm
          simp [dAdd, dGet, hak, this]
        · simp [dAdd, dGet, hak, hk2, ih]

lemma dHas_dAdd (d : List (String × ℤ)) (k : String) (v : ℤ) (k2 : String) :
    dHas (dAdd d k v) k2 = (dHas d k2 || Decidable.decide (k = k2)) := by
  induction d with
  | nil =>
      by_cases h : k = k2 <;> simp [dAdd, dHas, h]
  | cons kv rest ih =>
      obtain ⟨a, b⟩ := kv
      by_cases hak : a = k
      · subst hak
        by_cases hk2 : a = k2 <;> simp [dAdd, dHas, hk2]
      · by_cases hk2 : a = k2
        · subst hk2
          simp [dAdd, dHas, hak]
        · simp [dAdd, dHas, hak, hk2, ih]

/-! ### Level-counting lemmas -/

lemma crossed_foldl_eq_countP (z : RExt) (ts : List ℚ) : ∀ acc : ℕ,
    ts.foldl (fun acc t => if rextAbsGe z t then acc + 1 else acc) acc
      = acc + ts.countP (fun t => rextAbsGe z t) := by
  induction ts with
  | nil => intro acc; simp
  | cons t ts ih =>
      intro acc
      rw [List.foldl_cons, List.countP_cons, ih]
      by_cases h : rextAbsGe z t <;> simp [h] <;> omega

lemma length_thresholds_all (s : PairTradeStrategy) :
    (thresholds_all s).length = s.thresholds_enter.length + 2 := by
  simp [thresholds_all]

lemma detect_level_natAbs_le (s : PairTradeStrategy) (pair : HoldingPair)
    (x y : ℚ) :
    (detect_level s pair x y).natAbs ≤ s.thresholds_enter.length + 2 := by
  have hle := List.countP_le_length
    (l := thresholds_all s)
    (p := fun t => rextAbsGe (zscore (y - pair.beta * x) pair.spread_mean pair.spread_std) t)
  rw [length_thresholds_all] at hle
  simp only [detect_level]
  rw [crossed_foldl_eq_countP]
  split <;> simp <;> omega

/-! ### `decide_pair` structure lemmas -/

lemma decide_pair_X (s : PairTradeStrategy) (p : HoldingPair) (x y : ℚ) :
    (decide_pair s p x y).pair.X = p.X := by
  simp only [decide_pair]; split <;> rfl

lemma decide_pair_Y (s : PairTradeStrategy) (p : HoldingPair) (x y : ℚ) :
    (decide_pair s p x y).pair.Y = p.Y := by
  simp only [decide_pair]; split <;> rfl

lemma decide_pair_beta (s : PairTradeStrategy) (p : HoldingPair) (x y : ℚ) :
    (decide_pair s p x y).pair.beta = p.beta := by
  simp only [decide_pair]; split <;> rfl

lemma decide_pair_spread_mean (s : PairTradeStrategy) (p : HoldingPair) (x y : ℚ) :
    (decide_pair s p x y).pair.spread_mean = p.spread_mean := by
  simp only [decide_pair]; split <;> rfl

lemma decide_pair_spread_std (s : PairTradeStrategy) (p : HoldingPair) (x y : ℚ) :
    (decide_pair s p x y).pair.spread_std = p.spread_std := by
  simp only [decide_pair]; split <;> rfl

lemma decide_pair_money (s : PairTradeStrategy) (p : HoldingPair) (x y : ℚ) :
    (decide_pair s p x y).pair.money_allocated = p.money_allocated := by
  simp only [decide_pair]; split <;> rfl

lemma decide_pair_position (s : PairTradeStrategy) (p : HoldingPair) (x y : ℚ) :
    (decide_pair s p x y).pair.position
      = target_position s p.position (detect_level s p x y) := by
  simp only [decide_pair]
  split
  · rfl
  · next h => exact not_ne_iff.mp h

lemma target_position_idem (s : PairTradeStrategy) (pos level : ℤ) :
    target_position s (target_position s pos level) level
      = target_position s pos level := by
  unfold target_position
  split_ifs <;> rfl

lemma decide_pair_of_position_eq (s : PairTradeStrategy) (p : HoldingPair)
    (x y : ℚ) (h : p.position = target_position s p.position (detect_level s p x y)) :
    decide_pair s p x y = ⟨0, 0, p⟩ := by
  simp only [decide_pair]
  rw [if_neg (not_ne_iff.mpr h)]

lemma detect_level_again (s : PairTradeStrategy) (p : HoldingPair) (x y : ℚ) :
    detect_level s (decide_pair s p x y).pair x y = detect_level s p x y := by
  simp only [detect_level, decide_pair_beta, decide_pair_spread_mean,
    decide_pair_spread_std]

lemma decide_pair_again (s : PairTradeStrategy) (p : HoldingPair) (x y : ℚ) :
    decide_pair s (decide_pair s p x y).pair x y
      = ⟨0, 0, (decide_pair s p x y).pair⟩ := by
  apply decide_pair_of_position_eq
  rw [detect_level_again, decide_pair_position, target_position_idem]

/-! ### Fold lemmas for `decide` -/

lemma decide_foldl_snd (s : PairTradeStrategy) (pr : String → ℚ)
    (ps : List HoldingPair) : ∀ (d0 : List (String × ℤ)) (l0 : List HoldingPair),
    (ps.foldl (decide_step s pr) (d0, l0)).2
      = l0 ++ ps.map fun p => (decide_pair s p (pr p.X) (pr p.Y)).pair := by
  induction ps with
  | nil => intro d0 l0; simp
  | cons p ps ih =>
      intro d0 l0
      rw [List.foldl_cons, List.map_cons]
      show (ps.foldl (decide_step s pr) (decide_step s pr (d0, l0) p)).2 = _
      rw [show decide_step s pr (d0, l0) p
            = ((decide_step s pr (d0, l0) p).1, (decide_step s pr (d0, l0) p).2) from rfl,
        ih]
      simp [decide_step]

lemma dGet_decide_foldl (s : PairTradeStrategy) (pr : String → ℚ) (k : String)
    (ps : List HoldingPair) : ∀ (d0 : List (String × ℤ)) (l0 : List HoldingPair),
    dGet (ps.foldl (decide_step s pr) (d0, l0)).1 k
      = dGet d0 k + (ps.map fun p => pairContrib s pr p k).sum := by
  induction ps with
  | nil => intro d0 l0; simp
  | cons p ps ih =>
      intro d0 l0
      rw [List.foldl_cons]
      rw [show decide_step s pr (d0, l0) p
            = ((decide_step s pr (d0, l0) p).1, (decide_step s pr (d0, l0) p).2) from rfl,
        ih]
      simp only [decide_step, dGet_dAdd, pairContrib, List.map_cons, List.sum_cons]
      split_ifs <;> ring

lemma dHas_decide_foldl (s : PairTradeStrategy) (pr : String → ℚ) (k : String)
    (ps : List HoldingPair) : ∀ (d0 : List (String × ℤ)) (l0 : List HoldingPair),
    dHas (ps.foldl (decide_step s pr) (d0, l0)).1 k
      = (dHas d0 k || ps.any fun p => Decidable.decide (p.X = k) || Decidable.decide (p.Y = k)) := by
  induction ps with
  | nil => intro d0 l0; simp
  | cons p ps ih =>
      intro d0 l0
      rw [List.foldl_cons]
      rw [show decide_step s pr (d0, l0) p
            = ((decide_step s pr (d0, l0) p).1, (decide_step s pr (d0, l0) p).2) from rfl,
        ih]
      simp only [decide_step, dHas_dAdd, List.any_cons]
      by_cases hX : p.X = k <;> by_cases hY : p.Y = k <;> simp [hX, hY]

lemma decide_pairs_eq (s : PairTradeStrategy) (pr : String → ℚ) :
    ((decide s pr).2).pairs
      = s.pairs.map fun p => (decide_pair s p (pr p.X) (pr p.Y)).pair := by
  simp only [decide]
  rw [show (([], []) : List (String × ℤ) × List HoldingPair) = (([] : List (String × ℤ)), ([] : List HoldingPair)) from rfl]
  rw [decide_foldl_snd]
  simp

lemma decide_fst_dGet (s : PairTradeStrategy) (pr : String → ℚ) (k : String) :
    dGet (decide s pr).1 k = (s.pairs.map fun p => pairContrib s pr p k).sum := by
  simp only [decide]
  rw [dGet_decide_foldl]
  simp [dGet]

lemma decide_fst_dHas (s : PairTradeStrategy) (pr : String → ℚ) (k : String) :
    dHas (decide s pr).1 k
      = s.pairs.any fun p => Decidable.decide (p.X = k) || Decidable.decide (p.Y = k) := by
  simp only [decide]
  rw [dHas_decide_foldl]
  simp [dHas]

lemma decide_pair_cfg (s : PairTradeStrategy) (pr : String → ℚ)
    (p : HoldingPair) (x y : ℚ) :
    decide_pair ((decide s pr).2) p x y = decide_pair s p x y := rfl

/-- C5: calling `decide` twice with the same price input and no intervening
state change produces an order map whose every entry is zero the second time:
each pair's position already equals the target derived from the unchanged
level, so no quantity change is emitted for any stock. -/
theorem claim_C5_decide_idempotent (s : PairTradeStrategy) (pr : String → ℚ) :
    ∀ stock : String, dGet ((decide ((decide s pr).2) pr).1) stock = 0 := by
  intro k
  rw [decide_fst_dGet]
  apply List.sum_eq_zero
  intro v hv
  simp only [List.mem_map] at hv
  obtain ⟨p1, hp1, rfl⟩ := hv
  rw [decide_pairs_eq] at hp1
  simp only [List.mem_map] at hp1
  obtain ⟨p0, hp0, rfl⟩ := hp1
  have hX := decide_pair_X s p0 (pr p0.X) (pr p0.Y)
  have hY := decide_pair_Y s p0 (pr p0.X) (pr p0.Y)
  simp only [pairContrib, decide_pair_cfg, hX, hY, decide_pair_again]
  simp

/-- C10: the order map returned by `decide` has exactly the stocks of the
watch-list pairs as keys, each entry is the sum of the per-pair contributions
to that stock (so deltas of a stock shared by several pairs accumulate into
one entry), and a pair whose position already equals its target contributes
zero to both of its legs. -/
theorem claim_C10_order_map_shape (s : PairTradeStrategy) (pr : String → ℚ)
    (stock : String) :
    (dHas (decide s pr).1 stock = true ↔ stock ∈ pairStocks s) ∧
    dGet (decide s pr).1 stock
      = (s.pairs.map fun p => pairContrib s pr p stock).sum ∧
    (∀ p : HoldingPair,
      p.position = target_position s p.position (detect_level s p (pr p.X) (pr p.Y)) →
      pairContrib s pr p stock = 0) := by
  refine ⟨?_, decide_fst_dGet s pr stock, ?_⟩
  · rw [decide_fst_dHas]
    simp only [pairStocks, List.mem_flatMap, List.any_eq_true, Bool.or_eq_true,
      decide_eq_true_eq, List.mem_cons, List.mem_singleton, List.not_mem_nil]
    constructor
    · rintro ⟨p, hp, h | h⟩
      · exact ⟨p, hp, Or.inl h.symm⟩
      · exact ⟨p, hp, Or.inr (Or.inl h.symm)⟩
    · rintro ⟨p, hp, h | h | h⟩
      · exact ⟨p, hp, Or.inl h.symm⟩
      · exact ⟨p, hp, Or.inr h.symm⟩
      · exact h.elim
  · intro p hp
    simp only [pairContrib, decide_pair_of_position_eq s p _ _ hp]
    simp

/-- C9: if every pair's stored position is within the `k + 1` bound before a
`decide` call (`k` enter thresholds), it still is afterwards, and any pair for
which the stop tier `|level| = k + 2` is detected has its position reset to 0
by that same call. -/
theorem claim_C9_level_bound (s : PairTradeStrategy) (pr : String → ℚ)
    (h : ∀ p ∈ s.pairs, p.position.natAbs ≤ s.thresholds_enter.length + 1) :
    (∀ p2 ∈ ((decide s pr).2).pairs,
        p2.position.natAbs ≤ s.thresholds_enter.length + 1) ∧
    (∀ p ∈ s.pairs,
        (detect_level s p (pr p.X) (pr p.Y)).natAbs = s.thresholds_enter.length + 2 →
        (decide_pair s p (pr p.X) (pr p.Y)).pair.position = 0) := by
  constructor
  · intro p2 hp2
    rw [decide_pairs_eq] at hp2
    simp only [List.mem_map] at hp2
    obtain ⟨p, hp, rfl⟩ := hp2
    rw [decide_pair_position]
    have hb := detect_level_natAbs_le s p (pr p.X) (pr p.Y)
    have hh := h p hp
    unfold target_position
    split_ifs with h1 h2 h3 h4
    · simp
    · exact hh
    · simp
    · rw [Int.natAbs_mul, Int.natAbs_one, one_mul]; omega
    · rw [Int.natAbs_mul, show ((-1 : ℤ)).natAbs = 1 from rfl, one_mul]; omega
  · intro p hp hstop
    rw [decide_pair_position]
    unfold target_position
    split_ifs with h1 h2 h3 h4 <;> first | rfl | omega

/-! ### Degenerate spread statistics (claim C2) -/

lemma detect_level_of_nan (s : PairTradeStrategy) (pair : HoldingPair) (x y : ℚ)
    (h : zscore (y - pair.beta * x) pair.spread_mean pair.spread_std = .nan) :
    detect_level s pair x y = 0 := by
  simp only [detect_level, h]
  rw [crossed_foldl_eq_countP]
  simp [rextAbsGe, rextLt0]

lemma detect_level_of_pinf (s : PairTradeStrategy) (pair : HoldingPair) (x y : ℚ)
    (h : zscore (y - pair.beta * x) pair.spread_mean pair.spread_std = .pinf) :
    detect_level s pair x y = (s.thresholds_enter.length : ℤ) + 2 := by
  simp only [detect_level, h]
  rw [crossed_foldl_eq_countP]
  have : (thresholds_all s).countP (fun t => rextAbsGe .pinf t)
      = (thresholds_all s).length :=
    List.countP_eq_length.mpr (fun a _ => by simp [rextAbsGe])
  rw [this, length_thresholds_all]
  simp [rextLt0]

lemma detect_level_of_ninf (s : PairTradeStrategy) (pair : HoldingPair) (x y : ℚ)
    (h : zscore (y - pair.beta * x) pair.spread_mean pair.spread_std = .ninf) :
    detect_level s pair x y = -((s.thresholds_enter.length : ℤ) + 2) := by
  simp only [detect_level, h]
  rw [crossed_foldl_eq_countP]
  have : (thresholds_all s).countP (fun t => rextAbsGe .ninf t)
      = (thresholds_all s).length :=
    List.countP_eq_length.mpr (fun a _ => by simp [rextAbsGe])
  rw [this, length_thresholds_all]
  simp [rextLt0]

/-- With zero or undefined (`NaN`) spread statistics, the target position the
code derives is always flat: the `NaN` z-score crosses no threshold (level 0)
and the `±inf` z-score crosses all of them (stop tier). -/
lemma target_position_degenerate (s : PairTradeStrategy) (pair : HoldingPair)
    (x y : ℚ) (h : pair.spread_std = none ∨ pair.spread_std = some 0) :
    target_position s pair.position (detect_level s pair x y) = 0 := by
  rcases h with h | h
  · rw [detect_level_of_nan s pair x y (by simp [zscore, h])]
    simp [target_position]
  · rcases lt_trichotomy ((y - pair.beta * x) - pair.spread_mean) 0 with hlt | heq | hgt
    · rw [detect_level_of_ninf s pair x y
        (by simp only [zscore, h, if_true]; rw [if_neg (ne_of_lt hlt), if_neg (by linarith)])]
      unfold target_position
      split_ifs <;> first | rfl | omega
    · rw [detect_level_of_nan s pair x y (by simp only [zscore, h, if_true]; rw [if_pos heq])]
      simp [target_position]
    · rw [detect_level_of_pinf s pair x y
        (by simp only [zscore, h, if_true]; rw [if_neg (by linarith), if_pos hgt])]
      unfold target_position
      split_ifs <;> first | rfl | omega

/-- When the derived target is flat but a position is held, `decide` emits the
deltas that close both legs. -/
lemma decide_pair_flatten (s : PairTradeStrategy) (pair : HoldingPair) (x y : ℚ)
    (htgt : target_position s pair.position (detect_level s pair x y) = 0)
    (hpos : pair.position ≠ 0) :
    decide_pair s pair x y
      = ⟨-pair.X_quantity, -pair.Y_quantity,
         { pair with position := 0, X_quantity := 0, Y_quantity := 0 }⟩ := by
  simp only [decide_pair, htgt]
  rw [if_pos hpos]
  norm_num [ratTrunc]

/-- C2 is false as stated: with undefined (`NaN`) spread statistics and an
open position (here `pairNan`, holding position 1 with quantities −3/3),
`decide` emits a nonzero order delta (−3 for the Y leg), closing the
position rather than trading nothing. -/
theorem claim_C2_counterexample :
    dGet (decide stratNan (fun _ => 10)).1 ("B") = -3 ∧ ((-3 : ℤ) ≠ 0) := by
  refine ⟨?_, by decide⟩
  rw [decide_fst_dGet]
  have hflat := decide_pair_flatten stratNan pairNan 10 10
    (target_position_degenerate stratNan pairNan 10 10 (Or.inl rfl)) (by decide)
  show (List.map (fun p => pairContrib stratNan (fun _ => 10) p ("B")) [pairNan]).sum = -3
  simp only [List.map_cons, List.map_nil, List.sum_cons, List.sum_nil, pairContrib]
  simp only [hflat]
  decide

/-- C2 (amended): when a pair's `spread_std` is zero or undefined (`NaN`),
`decide` resolves the target position to flat (0) and never raises under
float semantics; it emits zero deltas only when the pair is already flat —
an open position is closed, with deltas equal to the negated held
quantities. -/
theorem claim_C2_amended (s : PairTradeStrategy) (pair : HoldingPair)
    (x_price y_price : ℚ)
    (h : pair.spread_std = none ∨ pair.spread_std = some 0) :
    (decide_pair s pair x_price y_price).pair.position = 0 ∧
    (decide_pair s pair x_price y_price).dX
      = (if pair.position = 0 then 0 else -pair.X_quantity) ∧
    (decide_pair s pair x_price y_price).dY
      = (if pair.position = 0 then 0 else -pair.Y_quantity) := by
  have htgt := target_position_degenerate s pair x_price y_price h
  by_cases hpos : pair.position = 0
  · rw [decide_pair_of_position_eq s pair x_price y_price (by rw [htgt, hpos])]
    simp [hpos]
  · rw [decide_pair_flatten s pair x_price y_price htgt hpos]
    simp [hpos]

/-- Witness for the amended C2, at the concrete `NaN`-statistics pair. -/
theorem claim_C2_witness :
    (decide_pair stratNan pairNan 10 10).pair.position = 0 ∧
    (decide_pair stratNan pairNan 10 10).dX
      = (if pairNan.position = 0 then 0 else -pairNan.X_quantity) ∧
    (decide_pair stratNan pairNan 10 10).dY
      = (if pairNan.position = 0 then 0 else -pairNan.Y_quantity) :=
  claim_C2_amended stratNan pairNan 10 10 (Or.inl rfl)

/-! ### The sign of the target position (claim C1) -/

lemma detect_level_pairA : detect_level stratDemo pairA 0 (5/2) = 2 := by
  have hz : zscore ((5/2 : ℚ) - pairA.beta * 0) pairA.spread_mean pairA.spread_std
      = .fin (5/2) := by
    simp [zscore, pairA]
  simp only [detect_level, hz]
  rw [crossed_foldl_eq_countP]
  have habs : |(5:ℚ)/2| = 5/2 := abs_of_nonneg (by norm_num)
  simp [thresholds_all, stratDemo, rextAbsGe, rextLt0, habs, List.countP_cons,
    show (1:ℚ) ≤ 5/2 by norm_num, show (2:ℚ) ≤ 5/2 by norm_num,
    show ¬ ((3:ℚ) ≤ 5/2) by norm_num, show ¬ ((5:ℚ)/2 < 0) by norm_num]

/-- C1 is false as stated: for z = 2.5 against the ladder [1, 2, 3] the tier
is 2, but the target position `decide` resolves is −1, not
`sign(tier)·(|tier|−1) = +1` — positive levels are shorted
(`direction = 1 if level < 0 else -1` in the source). -/
theorem claim_C1_counterexample :
    detect_level stratDemo pairA 0 (5/2) = 2 ∧
    (decide_pair stratDemo pairA 0 (5/2)).pair.position = -1 ∧
    ((-1 : ℤ) ≠ Int.sign 2 * (|(2 : ℤ)| - 1)) := by
  refine ⟨detect_level_pairA, ?_, by decide⟩
  rw [decide_pair_position, detect_level_pairA]
  decide

/-- C1 (amended): for every detected level with 2 ≤ |level| ≤ n+1
(n enter thresholds), `decide` resolves the target position to
`−sign(level)·(|level|−1)`: it shorts the spread when the z-score is high and
longs it when the z-score is low. -/
theorem claim_C1_amended (s : PairTradeStrategy) (pair : HoldingPair)
    (x_price y_price : ℚ)
    (h2 : 2 ≤ (detect_level s pair x_price y_price).natAbs)
    (hn : (detect_level s pair x_price y_price).natAbs
            ≤ s.thresholds_enter.length + 1) :
    (decide_pair s pair x_price y_price).pair.position
      = -(detect_level s pair x_price y_price).sign
          * (((detect_level s pair x_price y_price).natAbs : ℤ) - 1) := by
  rw [decide_pair_position]
  set L := detect_level s pair x_price y_price with hL
  unfold target_position
  rw [if_neg (by omega), if_neg (by omega), if_neg (by omega)]
  rcases lt_trichotomy L 0 with hlt | heq | hgt
  · rw [if_pos hlt, Int.sign_eq_neg_one_of_neg hlt]
    ring
  · omega
  · rw [if_neg (by omega), Int.sign_eq_one_of_pos hgt]

/-- Witness for the amended C1, at the z = 2.5 fixture (level 2, target −1). -/
theorem claim_C1_witness :
    (decide_pair stratDemo pairA 0 (5/2)).pair.position
      = -(detect_level stratDemo pairA 0 (5/2)).sign
          * (((detect_level stratDemo pairA 0 (5/2)).natAbs : ℤ) - 1) :=
  claim_C1_amended stratDemo pairA 0 (5/2)
    (by rw [detect_level_pairA]; decide)
    (by rw [detect_level_pairA]; decide)

/-! ### Order sizing (claim C3) -/

lemma ratTrunc_of_nonneg {q : ℚ} (h : 0 ≤ q) : ratTrunc q = ⌊q⌋ := by
  rw [ratTrunc, if_pos h]

lemma ratTrunc_of_neg {q : ℚ} (h : ¬ 0 ≤ q) : ratTrunc q = ⌈q⌉ := by
  rw [ratTrunc, if_neg h]

/-- C3 (amended): whenever `decide` changes a pair's position (to target `t`),
the new Y quantity is `sign(t) · floor(money / pairPrice)` with
`money = money_allocated · Σ allocations[0..|t|)` and
`pairPrice = priceY + |beta| · priceX`, the new X quantity is
`−trunc(quantityY · beta)` (truncation toward zero, Python `int()`, not
rounding to nearest), and the emitted deltas are the target quantities minus
the held quantities. -/
theorem claim_C3_amended (s : PairTradeStrategy) (pair : HoldingPair)
    (x_price y_price : ℚ)
    (hm : 0 ≤ pair.money_allocated)
    (ha : ∀ a ∈ s.allocations, 0 ≤ a)
    (hp : 0 < y_price + |pair.beta| * x_price)
    (ht : pair.position
            ≠ target_position s pair.position (detect_level s pair x_price y_price)) :
    (decide_pair s pair x_price y_price).pair.Y_quantity
      = (target_position s pair.position (detect_level s pair x_price y_price)).sign
          * ⌊pair.money_allocated
              * (s.allocations.take
                  (target_position s pair.position
                    (detect_level s pair x_price y_price)).natAbs).sum
              / (y_price + |pair.beta| * x_price)⌋ ∧
    (decide_pair s pair x_price y_price).pair.X_quantity
      = -(ratTrunc (((decide_pair s pair x_price y_price).pair.Y_quantity : ℚ)
            * pair.beta)) ∧
    (decide_pair s pair x_price y_price).dX
      = (decide_pair s pair x_price y_price).pair.X_quantity - pair.X_quantity ∧
    (decide_pair s pair x_price y_price).dY
      = (decide_pair s pair x_price y_price).pair.Y_quantity - pair.Y_quantity ∧
    (decide_pair s pair x_price y_price).pair.position
      = target_position s pair.position (detect_level s pair x_price y_price) := by
  have hmoney : 0 ≤ pair.money_allocated
      * (s.allocations.take
          (target_position s pair.position
            (detect_level s pair x_price y_price)).natAbs).sum :=
    mul_nonneg hm (List.sum_nonneg fun a hmem => ha a (List.mem_of_mem_take hmem))
  have hdiv : 0 ≤ pair.money_allocated
      * (s.allocations.take
          (target_position s pair.position
            (detect_level s pair x_price y_price)).natAbs).sum
      / (y_price + |pair.beta| * x_price) := div_nonneg hmoney hp.le
  simp only [decide_pair]
  rw [if_pos ht]
  refine ⟨?_, rfl, rfl, rfl, rfl⟩
  dsimp only
  rw [ratTrunc_of_nonneg hdiv]
  rcases lt_trichotomy
    (target_position s pair.position (detect_level s pair x_price y_price)) 0
    with hlt | heq | hgt
  · rw [if_neg (by omega), if_pos hlt, Int.sign_eq_neg_one_of_neg hlt]
    ring
  · rw [heq]
    norm_num
  · rw [if_pos hgt, Int.sign_eq_one_of_pos hgt, one_mul]

lemma detect_level_pairC3 : detect_level stratDemo pairC3 10 20 = 2 := by
  have hz : zscore ((20 : ℚ) - pairC3.beta * 10) pairC3.spread_mean pairC3.spread_std
      = .fin (11/5) := by
    simp [zscore, pairC3]
    norm_num
  simp only [detect_level, hz]
  rw [crossed_foldl_eq_countP]
  have habs : |(11:ℚ)/5| = 11/5 := abs_of_nonneg (by norm_num)
  simp [thresholds_all, stratDemo, rextAbsGe, rextLt0, habs, List.countP_cons,
    show (1:ℚ) ≤ 11/5 by norm_num, show (2:ℚ) ≤ 11/5 by norm_num,
    show ¬ ((3:ℚ) ≤ 11/5) by norm_num, show ¬ ((11:ℚ)/5 < 0) by norm_num]

lemma decide_pairC3_fields :
    (decide_pair stratDemo pairC3 10 20).pair.Y_quantity = -3 ∧
    (decide_pair stratDemo pairC3 10 20).pair.X_quantity = 2 := by
  have htgt : target_position stratDemo pairC3.position
      (detect_level stratDemo pairC3 10 20) = -1 := by
    rw [detect_level_pairC3]
    decide
  have hY : ratTrunc ((100 : ℚ) / 29) = 3 := by
    rw [ratTrunc, if_pos (by norm_num)]
    norm_num [Int.floor_eq_iff]
  have hX : ratTrunc ((-3 : ℚ) * (9/10)) = -2 := by
    rw [ratTrunc, if_neg (by norm_num)]
    norm_num [Int.ceil_eq_iff]
  simp only [decide_pair]
  rw [htgt, if_pos (by decide : pairC3.position ≠ -1)]
  rw [if_neg (by decide : ¬ ((0:ℤ) < -1)), if_pos (by decide : (-1:ℤ) < 0)]
  rw [show pairC3.money_allocated
        * (stratDemo.allocations.take ((-1 : ℤ)).natAbs).sum = 100 from by
      norm_num [pairC3, stratDemo]]
  rw [show (20 : ℚ) + |pairC3.beta| * 10 = 29 from by
      rw [show |pairC3.beta| = 9/10 from by norm_num [pairC3]]
      norm_num]
  rw [hY]
  constructor
  · rfl
  · show -(ratTrunc (((-3 : ℤ) : ℚ) * pairC3.beta)) = 2
    rw [show (((-3 : ℤ) : ℚ) * pairC3.beta) = (-3 : ℚ) * (9/10) from by
      norm_num [pairC3]]
    rw [hX]
    decide

/-- C3 is false as stated: in the z = 2.2 fixture the code targets
`Y_quantity = −3` and sets `X_quantity = −int(−3 · 0.9) = −int(−2.7) = 2`
(truncation toward zero), whereas the claimed `−round(quantityY · beta)`
would give `−round(−2.7) = 3`. -/
theorem claim_C3_counterexample :
    (decide_pair stratDemo pairC3 10 20).pair.Y_quantity = -3 ∧
    (decide_pair stratDemo pairC3 10 20).pair.X_quantity = 2 ∧
    (decide_pair stratDemo pairC3 10 20).pair.X_quantity
      ≠ -(round (((decide_pair stratDemo pairC3 10 20).pair.Y_quantity : ℚ)
            * pairC3.beta)) := by
  refine ⟨decide_pairC3_fields.1, decide_pairC3_fields.2, ?_⟩
  rw [decide_pairC3_fields.1, decide_pairC3_fields.2]
  rw [show (((-3 : ℤ) : ℚ) * pairC3.beta) = -27/10 from by norm_num [pairC3]]
  rw [show round ((-27 : ℚ)/10) = -3 from by rw [round_eq]; norm_num [Int.floor_eq_iff]]
  decide

/-- Witness for the amended C3, at the z = 2.2 fixture. -/
theorem claim_C3_witness :
    (decide_pair stratDemo pairC3 10 20).pair.Y_quantity
      = (target_position stratDemo pairC3.position
          (detect_level stratDemo pairC3 10 20)).sign
          * ⌊pairC3.money_allocated
              * (stratDemo.allocations.take
                  (target_position stratDemo pairC3.position
                    (detect_level stratDemo pairC3 10 20)).natAbs).sum
              / (20 + |pairC3.beta| * 10)⌋ ∧
    (decide_pair stratDemo pairC3 10 20).pair.X_quantity
      = -(ratTrunc (((decide_pair stratDemo pairC3 10 20).pair.Y_quantity : ℚ)
            * pairC3.beta)) ∧
    (decide_pair stratDemo pairC3 10 20).dX
      = (decide_pair stratDemo pairC3 10 20).pair.X_quantity - pairC3.X_quantity ∧
    (decide_pair stratDemo pairC3 10 20).dY
      = (decide_pair stratDemo pairC3 10 20).pair.Y_quantity - pairC3.Y_quantity ∧
    (decide_pair stratDemo pairC3 10 20).pair.position
      = target_position stratDemo pairC3.position
          (detect_level stratDemo pairC3 10 20) :=
  claim_C3_amended stratDemo pairC3 10 20
    (by norm_num [pairC3])
    (by norm_num [stratDemo])
    (by simp only [pairC3]
        rw [abs_of_nonneg (by norm_num : (0:ℚ) ≤ 9/10)]
        norm_num)
    (by rw [detect_level_pairC3]; decide)

/-! ### Constructor behaviour (claim C4) -/

/-- C4 is false as stated: the threshold sequence [3, 1, 2] violates the
claimed ordering (exit=3 is not below enter=1), yet construction succeeds —
`__init__` sorts the absolute thresholds instead of validating them. -/
theorem claim_C4_counterexample :
    (¬ ((3:ℚ) < 1)) ∧ (mkStrategy [3, 1, 2] [1] []).isSome = true := by
  constructor
  · norm_num
  · norm_num [mkStrategy, List.insertionSort, List.orderedInsert]

/-- C4 (amended): construction never checks the given ordering — it sorts the
absolute values of the thresholds.  It succeeds iff the threshold list is
nonempty, the number of enter thresholds (`len − 2`, truncated at 0) equals
the number of allocations, and the absolute allocations sum to at most 1; and
every successfully constructed ladder `[exit] + enter + [stop]` is weakly
ascending. -/
theorem claim_C4_amended (thresholds allocations : List ℚ)
    (pairList : List (String × String × ℚ)) :
    ((mkStrategy thresholds allocations pairList).isSome
      ↔ thresholds ≠ []
        ∧ thresholds.length - 2 = allocations.length
        ∧ (allocations.map (fun a => |a|)).sum ≤ 1) ∧
    (∀ S : PairTradeStrategy, mkStrategy thresholds allocations pairList = some S →
      List.Chain' (· ≤ ·) (thresholds_all S)) := by
  rcases h : (thresholds.map (fun t => |t|)).insertionSort (· ≤ ·) with _ | ⟨t0, rest⟩
  · have hlen : thresholds.length = 0 := by
      have hh := congrArg List.length h
      simpa using hh
    have hnil : thresholds = [] := List.length_eq_zero.mp hlen
    constructor
    · simp [mkStrategy, h, hnil]
    · intro S hS
      simp [mkStrategy, h] at hS
  · have hlenS : rest.length + 1 = thresholds.length := by
      have hh := congrArg List.length h
      simp [List.length_insertionSort] at hh
      omega
    have hne : thresholds ≠ [] := by
      intro hh
      rw [hh] at h
      simp at h
    constructor
    · by_cases hc : (rest.dropLast.length = (allocations.map (fun a => |a|)).length
          ∧ (allocations.map (fun a => |a|)).sum ≤ 1)
      · simp only [mkStrategy, h, if_pos hc, Option.isSome_some, true_iff]
        refine ⟨hne, ?_, hc.2⟩
        have h1 := hc.1
        simp [List.length_dropLast, List.length_map] at h1
        omega
      · simp only [mkStrategy, h, if_neg hc, Option.isSome_none, Bool.false_eq_true, false_iff]
        rintro ⟨hne2, hlen2, hsum⟩
        apply hc
        constructor
        · simp [List.length_dropLast, List.length_map]
          omega
        · exact hsum
    · intro S hS
      simp only [mkStrategy, h] at hS
      split_ifs at hS with hc
      · have hSr : _ = S := Option.some_inj.mp hS
        subst hSr
        have hsorted : List.Sorted (· ≤ ·) (t0 :: rest) := by
          rw [← h]
          exact List.sorted_insertionSort _ _
        have hchain : List.Chain' (· ≤ ·) (t0 :: rest) :=
          List.chain'_iff_pairwise.mpr hsorted
        cases rest with
        | nil => simp [thresholds_all]
        | cons r1 rs =>
            have hgl : (t0 :: r1 :: rs).getLast (by simp)
                = (r1 :: rs).getLast (by simp) := List.getLast_cons (by simp)
            rw [show thresholds_all
                  { threshold_exit := t0
                  , thresholds_enter := (r1 :: rs).dropLast
                  , threshold_stop := (t0 :: r1 :: rs).getLast (by simp)
                  , allocations := allocations.map (fun a => |a|)
                  , pairs := pairList.map (fun q => mkHoldingPair q.1 q.2.1 q.2.2) }
                = t0 :: ((r1 :: rs).dropLast ++ [(r1 :: rs).getLast (by simp)]) from by
              simp [thresholds_all, hgl]]
            rw [List.dropLast_append_getLast]
            exact hchain

/-- Witness for the amended C4: the ladder [1, 2, 3] with allocations [1]
constructs successfully and yields the ascending ladder of `stratDemo`. -/
theorem claim_C4_witness :
    (mkStrategy [1, 2, 3] [1] []).isSome = true ∧
    List.Chain' (· ≤ ·) (thresholds_all stratDemo) := by
  have hmk : mkStrategy [1, 2, 3] [1] [] = some stratDemo := by
    norm_num [mkStrategy, List.insertionSort, List.orderedInsert, stratDemo]
  exact ⟨(claim_C4_amended [1, 2, 3] [1] []).1.mpr
          ⟨by simp, by norm_num, by norm_num⟩,
         (claim_C4_amended [1, 2, 3] [1] []).2 stratDemo hmk⟩

/-! ### Ledger arithmetic (claim C6) -/

lemma foldl_add_eq_sum {A : Type} (g : A → ℚ) (l : List A) : ∀ c : ℚ,
    l.foldl (fun a x => a + g x) c = c + (l.map g).sum := by
  induction l with
  | nil => intro c; simp
  | cons x xs ih =>
      intro c
      rw [List.foldl_cons, ih]
      simp
      ring

lemma roundHalfEven_intCast (n : ℤ) : roundHalfEven (n : ℚ) = n := by
  rw [roundHalfEven, Int.floor_intCast]
  norm_num

lemma pyRound2_intCast (n : ℤ) : pyRound2 (n : ℚ) = (n : ℚ) := by
  rw [pyRound2, show (100 : ℚ) * (n : ℚ) = ((100 * n : ℤ) : ℚ) from by push_cast; ring,
    roundHalfEven_intCast]
  push_cast
  ring

/-- C6 is false as stated: an order of 1 share at price 1/3 with zero costs
changes cash by `round(−1/3, 2) = −0.33`, not by the exact `−Σ delta·price
= −1/3` — `cash_change` rounds its result to cents. -/
theorem claim_C6_counterexample :
    cash_change [("A", 1)] (fun _ => 1/3) 0 0 = -33/100 ∧
    (-33/100 : ℚ) ≠ -((1/3 : ℚ) * 1) := by
  have h13 : pyRound2 (-(1/3) : ℚ) = -33/100 := by
    have hfl : ⌊(100 : ℚ) * (-(1/3))⌋ = -34 := by
      rw [show (100:ℚ) * (-(1/3)) = -100/3 from by ring]
      norm_num [Int.floor_eq_iff]
    rw [pyRound2, roundHalfEven, hfl]
    norm_num
  constructor
  · simp only [cash_change, List.foldl_cons, List.foldl_nil]
    rw [show (0 : ℚ) + -(1/3) * ((1 : ℤ) : ℚ) - |(-(1/3) * ((1 : ℤ) : ℚ))| * 0
          - ((1 : ℤ) : ℚ) * 0 = -(1/3) from by push_cast; rw [abs_of_nonpos (by norm_num)]; ring]
    exact h13
  · norm_num

/-- C6 (amended): `cash_change` changes cash by
`round₂(−Σ delta·price − Σ |delta·price|·txCostPerDollar − Σ delta·txCostPerShare)`
— the claimed sum, rounded to the nearest cent (ties to even); with zero
costs, cash 1,000,000 and order {AAA: 100} at price 50 the rounding is exact:
cash becomes 995,000 and cash plus position value is exactly 1,000,000. -/
theorem claim_C6_amended (orders : List (String × ℤ)) (close : String → ℚ)
    (cps cpd : ℚ) :
    cash_change orders close cps cpd
      = pyRound2 ((orders.map (fun kv =>
          -(close kv.1 * (kv.2 : ℚ)) - |close kv.1 * (kv.2 : ℚ)| * cpd
            - (kv.2 : ℚ) * cps)).sum) ∧
    cash_change [("AAA", 100)] (fun _ => 50) 0 0 = -5000 ∧
    (1000000 : ℚ) + cash_change [("AAA", 100)] (fun _ => 50) 0 0 = 995000 ∧
    (995000 : ℚ) + net_worth [("AAA", 100)] (fun _ => 50) = 1000000 := by
  have hscen : cash_change [("AAA", 100)] (fun _ => 50) 0 0 = -5000 := by
    simp only [cash_change, List.foldl_cons, List.foldl_nil]
    rw [show (0 : ℚ) + -(50) * ((100 : ℤ) : ℚ) - |(-(50) * ((100 : ℤ) : ℚ))| * 0
          - ((100 : ℤ) : ℚ) * 0 = (((-5000 : ℤ)) : ℚ) from by push_cast; ring,
      pyRound2_intCast]
    norm_num
  refine ⟨?_, hscen, by rw [hscen]; norm_num, ?_⟩
  · rw [cash_change]
    rw [show (fun (change : ℚ) (kv : String × ℤ) =>
          change + -(close kv.1) * (kv.2 : ℚ)
            - |(-(close kv.1) * (kv.2 : ℚ))| * cpd - (kv.2 : ℚ) * cps)
        = (fun (change : ℚ) (kv : String × ℤ) =>
          change + (-(close kv.1 * (kv.2 : ℚ)) - |close kv.1 * (kv.2 : ℚ)| * cpd
            - (kv.2 : ℚ) * cps)) from by
      funext c kv
      rw [neg_mul, abs_neg]
      ring]
    rw [foldl_add_eq_sum, zero_add]
  · rw [show net_worth [("AAA", 100)] (fun _ => 50) = 5000 from by
      simp only [net_worth, List.foldl_cons, List.foldl_nil]
      rw [show (0 : ℚ) + 50 * ((100 : ℤ) : ℚ) = ((5000 : ℤ) : ℚ) from by push_cast; ring,
        pyRound2_intCast]
      norm_num]
    norm_num

/-! ### Training-pipeline resumability (claim C7) -/

/-- C7: the pipeline enqueues exactly the jobs whose ids are absent from the
set collected from existing output files; `generate_jobs` ids are the
sequential range over all unordered pairs; and for the concrete job set with
ids 0..4 and completed ids 0..2, the outstanding ids are exactly 3 and 4. -/
theorem claim_C7_resumability :
    (∀ (total : List (ℕ × String × String)) (done : List ℕ)
        (j : ℕ × String × String),
      j ∈ outstanding_jobs total done ↔ j ∈ total ∧ j.1 ∉ done) ∧
    (∀ codes : List String,
      (generate_jobs codes).map (fun j => j.1)
        = List.range (pairs_of (codes.insertionSort (· ≤ ·))).length) ∧
    ((outstanding_jobs
        [(0, "A", "B"), (1, "A", "C"), (2, "A", "D"), (3, "B", "C"), (4, "B", "D")]
        [0, 1, 2]).map (fun j => j.1) = [3, 4]) := by
  refine ⟨?_, ?_, ?_⟩
  · intro total done j
    simp [outstanding_jobs, List.mem_filter]
  · intro codes
    simp only [generate_jobs]
    rw [List.map_map]
    rw [show ((fun j : ℕ × String × String => j.1)
          ∘ fun ip : ℕ × (String × String) => (ip.1, ip.2.1, ip.2.2))
        = Prod.fst from rfl]
    exact List.enum_map_fst _
  · decide

/-! ### The max-drawdown metric (claim C8) -/

lemma list_min_spec (xs : List ℚ) : ∀ a : ℚ,
    (xs.foldl min a ∈ a :: xs) ∧ (∀ y ∈ a :: xs, xs.foldl min a ≤ y) := by
  induction xs with
  | nil =>
      intro a
      refine ⟨by simp, ?_⟩
      intro y hy
      simp at hy
      simp [hy]
  | cons b bs ih =>
      intro a
      rw [List.foldl_cons]
      obtain ⟨hmem, hle⟩ := ih (min a b)
      constructor
      · rcases List.mem_cons.mp hmem with hm | hm
        · rcases min_choice a b with hab | hab <;> rw [hm, hab] <;> simp
        · simp [List.mem_cons, hm]
      · intro y hy
        rcases List.mem_cons.mp hy with hy1 | hy2
        · rw [hy1]
          exact le_trans (hle _ (List.mem_cons_self _ _)) (min_le_left a b)
        · rcases List.mem_cons.mp hy2 with hy1 | hy3
          · rw [hy1]
            exact le_trans (hle _ (List.mem_cons_self _ _)) (min_le_right a b)
          · exact hle _ (List.mem_cons_of_mem _ hy3)

lemma list_max_spec (xs : List ℚ) : ∀ a : ℚ,
    (xs.foldl max a ∈ a :: xs) ∧ (∀ y ∈ a :: xs, y ≤ xs.foldl max a) := by
  induction xs with
  | nil =>
      intro a
      refine ⟨by simp, ?_⟩
      intro y hy
      simp at hy
      simp [hy]
  | cons b bs ih =>
      intro a
      rw [List.foldl_cons]
      obtain ⟨hmem, hle⟩ := ih (max a b)
      constructor
      · rcases List.mem_cons.mp hmem with hm | hm
        · rcases max_choice a b with hab | hab <;> rw [hm, hab] <;> simp
        · simp [List.mem_cons, hm]
      · intro y hy
        rcases List.mem_cons.mp hy with hy1 | hy2
        · rw [hy1]
          exact le_trans (le_max_left a b) (hle _ (List.mem_cons_self _ _))
        · rcases List.mem_cons.mp hy2 with hy1 | hy3
          · rw [hy1]
            exact le_trans (le_max_right a b) (hle _ (List.mem_cons_self _ _))
          · exact hle _ (List.mem_cons_of_mem _ hy3)

/-- C8: the reported Max Drawdown is `(min(S) − max(S)) / max(S)` over
`S = [initial_cash] + daily_tnw`, where `list_min`/`list_max` really are the
least and greatest elements of that sequence — a non-path-dependent
min-minus-max measure. -/
theorem claim_C8_max_drawdown (initial_cash : ℚ) (daily_tnw : List ℚ) :
    max_drawdown initial_cash daily_tnw
      = (list_min (initial_cash :: daily_tnw) - list_max (initial_cash :: daily_tnw))
          / list_max (initial_cash :: daily_tnw) ∧
    list_min (initial_cash :: daily_tnw) ∈ initial_cash :: daily_tnw ∧
    list_max (initial_cash :: daily_tnw) ∈ initial_cash :: daily_tnw ∧
    (∀ x ∈ initial_cash :: daily_tnw,
      list_min (initial_cash :: daily_tnw) ≤ x
        ∧ x ≤ list_max (initial_cash :: daily_tnw)) := by
  refine ⟨rfl, ?_, ?_, ?_⟩
  · exact (list_min_spec daily_tnw initial_cash).1
  · exact (list_max_spec daily_tnw initial_cash).1
  · intro x hx
    exact ⟨(list_min_spec daily_tnw initial_cash).2 x hx,
           (list_max_spec daily_tnw initial_cash).2 x hx⟩

/-- Witness for C8 at the concrete sequence 100, 50, 200 (min before max,
where a running-peak drawdown would differ). -/
theorem claim_C8_witness :
    max_drawdown 100 [50, 200]
      = (list_min [100, 50, 200] - list_max [100, 50, 200])
          / list_max [100, 50, 200]
    ∧ list_min [100, 50, 200] ≤ 50 :=
  ⟨(claim_C8_max_drawdown 100 [50, 200]).1,
   ((claim_C8_max_drawdown 100 [50, 200]).2.2.2 50 (by simp)).1⟩

/-! ### Witness material for claims C9 and C10 -/

lemma detect_level_pairStop : detect_level stratStop pairStop 0 10 = 3 := by
  have hz : zscore ((10 : ℚ) - pairStop.beta * 0) pairStop.spread_mean pairStop.spread_std
      = .fin 10 := by
    simp [zscore, pairStop, pairA]
  simp only [detect_level, hz]
  rw [crossed_foldl_eq_countP]
  have habs : |(10:ℚ)| = 10 := abs_of_nonneg (by norm_num)
  simp [thresholds_all, stratStop, stratDemo, rextAbsGe, rextLt0, habs,
    List.countP_cons,
    show (1:ℚ) ≤ 10 by norm_num, show (2:ℚ) ≤ 10 by norm_num,
    show (3:ℚ) ≤ 10 by norm_num, show ¬ ((10:ℚ) < 0) by norm_num]

/-- Witness for C9: with the stop tier detected (level 3 = k + 2), the
position of `pairStop` is reset to 0 by the same `decide_pair` step. -/
theorem claim_C9_witness :
    (decide_pair stratStop pairStop (pricesStop pairStop.X)
      (pricesStop pairStop.Y)).pair.position = 0 :=
  (claim_C9_level_bound stratStop pricesStop
    (by
      intro p hp
      rw [List.mem_singleton.mp hp]
      decide)).2 pairStop (List.mem_singleton_self pairStop)
    (by
      show (detect_level stratStop pairStop 0 10).natAbs
          = stratStop.thresholds_enter.length + 2
      rw [detect_level_pairStop]
      decide)

lemma detect_level_pairA_flat : detect_level stratA pairA 10 10 = 0 := by
  have hz : zscore ((10 : ℚ) - pairA.beta * 10) pairA.spread_mean pairA.spread_std
      = .fin 0 := by
    simp [zscore, pairA]
  simp only [detect_level, hz]
  rw [crossed_foldl_eq_countP]
  simp [thresholds_all, stratA, stratDemo, rextAbsGe, rextLt0, List.countP_cons,
    show ¬ ((1:ℚ) ≤ |(0:ℚ)|) by norm_num, show ¬ ((2:ℚ) ≤ |(0:ℚ)|) by norm_num,
    show ¬ ((3:ℚ) ≤ |(0:ℚ)|) by norm_num, show ¬ ((0:ℚ) < 0) by norm_num]

/-- Witness for C10 at the one-pair watch list of `stratA` and stock "A". -/
theorem claim_C10_witness :
    (dHas (decide stratA (fun _ => 10)).1 ("A") = true ↔ "A" ∈ pairStocks stratA) ∧
    dGet (decide stratA (fun _ => 10)).1 ("A")
      = (stratA.pairs.map fun p => pairContrib stratA (fun _ => 10) p ("A")).sum ∧
    pairContrib stratA (fun _ => 10) pairA ("A") = 0 :=
  ⟨(claim_C10_order_map_shape stratA (fun _ => 10) ("A")).1,
   (claim_C10_order_map_shape stratA (fun _ => 10) ("A")).2.1,
   (claim_C10_order_map_shape stratA (fun _ => 10) ("A")).2.2 pairA
    (by
      show pairA.position
          = target_position stratA pairA.position (detect_level stratA pairA 10 10)
      rw [detect_level_pairA_flat]
      decide)⟩

end OPQ
